import Mathlib

/-!
Shallow embedding of `src/main.js` (a browser Tic-Tac-Toe game) and
verification of its specification.

The game logic lives in module-level mutable state (`boardState`,
`currentPlayer`, `isGameActive`) mutated by `handleCellClick` and
`resetGame`.  We embed that state as an explicit `GameState` record and
each handler as a state-transforming function.  JavaScript peculiarities
that matter to the logic are modelled faithfully:

* `boardState` is a JS array initialised to nine `null`s; an assignment
  `boardState[i] = v` with `i ≥ length` grows the array, leaving *holes*
  (which read back as `undefined`) between the old end and `i`.  We model
  a cell as `Cell.empty` (an explicit `null`), `Cell.hole` (an array hole
  reading as `undefined`) or `Cell.mark p`.
* reads out of range yield `undefined`; both `null` and `undefined` are
  falsy, so the guard `boardState[index]` passes for them.
* `Array.prototype.every` skips holes, and its predicate here is
  `cell !== null`, so a hole counts as "passing" while an explicit `null`
  fails.
* `boardState.fill(null)` in `resetGame` fills the whole *current* length
  of the array with `null`; it does not shrink it back to nine entries.
* the code keeps a boolean `isGameActive` and surfaces the outcome via
  the status text and the highlighted triple; we fold these observables
  into a `GameStatus` field (`inProgress` exactly when `isGameActive` is
  `true`, `won`/`draw` carrying what `updateStatus` and
  `highlightWinningCells` are shown).
-/

namespace TicTacToe

/-- The two players, the strings `'X'` and `'O'` of the source. -/
inductive Player where
  | X
  | O
deriving DecidableEq, Repr, Fintype

/-- One slot of the JS `boardState` array: an explicit `null`, an array
hole (reads as `undefined`), or a player's mark. -/
inductive Cell where
  | empty
  | hole
  | mark (p : Player)
deriving DecidableEq, Repr

/-- JS truthiness of a cell value: `null` and `undefined` are falsy,
the strings `'X'`/`'O'` are truthy. -/
def isTruthy : Cell → Bool
  | Cell.mark _ => true
  | _ => false

/-- The winner carried by a cell, if it is a mark. -/
def cellWinner : Cell → Option Player
  | Cell.mark p => some p
  | _ => none

/-- Reading `boardState[i]`: out-of-range reads yield `undefined`,
modelled as `Cell.hole`. -/
def read (b : List Cell) (i : Nat) : Cell := b.getD i Cell.hole

/-- Writing `boardState[i] = v`: in range it replaces the slot; past the
end it grows the array, creating holes up to index `i`. -/
def write : List Cell → Nat → Cell → List Cell
  | [], 0, v => [v]
  | [], n + 1, v => Cell.hole :: write [] n v
  | _ :: rest, 0, v => v :: rest
  | c :: rest, n + 1, v => c :: write rest n v

/-- The predicate of the draw check, `cell !== null`, combined with the
fact that `every` skips holes: an explicit `null` fails, a hole is
skipped (counts as passing), a mark passes. -/
def jsNotNull : Cell → Bool
  | Cell.empty => false
  | _ => true

/-- `WINNING_COMBINATIONS` exactly as in `src/main.js` lines 1-3: only
the three rows are listed. -/
def WINNING_COMBINATIONS : List (Nat × Nat × Nat) :=
  [(0, 1, 2), (3, 4, 5), (6, 7, 8)]

/-- The loop body of `checkWinner`: scan the combination list, returning
the first combination whose first cell is truthy and whose three cells
are equal, together with the winning mark. -/
def checkWinnerAux (board : List Cell) :
    List (Nat × Nat × Nat) → Option (Player × (Nat × Nat × Nat))
  | [] => none
  | (a, b, c) :: rest =>
    match cellWinner (read board a) with
    | some p =>
      if read board a = read board b ∧ read board a = read board c then
        some (p, (a, b, c))
      else checkWinnerAux board rest
    | none => checkWinnerAux board rest

/-- `checkWinner` of `src/main.js` lines 89-97. -/
def checkWinner (board : List Cell) : Option (Player × (Nat × Nat × Nat)) :=
  checkWinnerAux board WINNING_COMBINATIONS

/-- The observable game phase: `inProgress` exactly when the source's
`isGameActive` is `true`; `won`/`draw` record what the status line and
the highlight show once the game ends. -/
inductive GameStatus where
  | inProgress
  | won (winner : Player) (combination : Nat × Nat × Nat)
  | draw
deriving DecidableEq, Repr

/-- The module-level mutable state of `src/main.js`. -/
structure GameState where
  boardState : List Cell
  currentPlayer : Player
  status : GameStatus
deriving DecidableEq, Repr

/-- The source's `isGameActive` boolean, derived from the status. -/
def isGameActive (s : GameState) : Bool :=
  match s.status with
  | GameStatus.inProgress => true
  | _ => false

/-- `currentPlayer === 'X' ? 'O' : 'X'` (line 136). -/
def otherPlayer : Player → Player
  | Player.X => Player.O
  | Player.O => Player.X

/-- `handleCellClick` of `src/main.js` lines 104-138, with the DOM and
audio side effects erased.  The guard, the write, the winner check, the
draw check and the player switch are kept in source order. -/
def handleCellClick (s : GameState) (index : Nat) : GameState :=
  if !isGameActive s || isTruthy (read s.boardState index) then s
  else
    let board := write s.boardState index (Cell.mark s.currentPlayer)
    match checkWinner board with
    | some (w, combo) =>
      { boardState := board, currentPlayer := s.currentPlayer
        status := GameStatus.won w combo }
    | none =>
      if board.all jsNotNull then
        { boardState := board, currentPlayer := s.currentPlayer
          status := GameStatus.draw }
      else
        { boardState := board, currentPlayer := otherPlayer s.currentPlayer
          status := GameStatus.inProgress }

/-- The state set up by lines 11-13: `Array(9).fill(null)`, `'X'`,
active. -/
def initState : GameState :=
  { boardState := List.replicate 9 Cell.empty
    currentPlayer := Player.X
    status := GameStatus.inProgress }

/-- `resetGame` of lines 155-160: `boardState.fill(null)` fills every
slot of the array's current length with `null` (it does not shrink the
array), then turn and active flag are reset. -/
def resetGame (s : GameState) : GameState :=
  { boardState := s.boardState.map (fun _ => Cell.empty)
    currentPlayer := Player.X
    status := GameStatus.inProgress }

/-- Running a list of cell clicks from a given state. -/
def playFrom (s : GameState) (moves : List Nat) : GameState :=
  moves.foldl handleCellClick s

/-- Running a list of cell clicks from the initial (equally: the reset)
state. -/
def play (moves : List Nat) : GameState :=
  playFrom initState moves

/-- The cell indices `renderBoard` (lines 65-75) binds click handlers
for: the loop `for (let i = 0; i < 9; i++)` attaches one handler per
`i` in `0..8`. -/
def handlerIndices : List Nat := List.range 9

/-! ### Spec-side vocabulary

Definitions below formalise the specification's wording (marks counts,
the eight canonical winning triples, "all three referenced cells are
non-Empty and equal") independently of the source, to state refinement
claims against. -/

/-- Number of cells of the board holding the given player's mark. -/
def countMark : List Cell → Player → Nat
  | [], _ => 0
  | c :: rest, q =>
    (if c = Cell.mark q then 1 else 0) + countMark rest q

/-- The eight canonical winning triples of the specification: three
rows, three columns, two diagonals. -/
def ALL_TRIPLES : List (Nat × Nat × Nat) :=
  [(0, 1, 2), (3, 4, 5), (6, 7, 8),
   (0, 3, 6), (1, 4, 7), (2, 5, 8),
   (0, 4, 8), (2, 4, 6)]

/-- The triple `t` is filled with player `p`'s mark. -/
def monoTriple (b : List Cell) (t : Nat × Nat × Nat) (p : Player) : Prop :=
  read b t.1 = Cell.mark p ∧ read b t.2.1 = Cell.mark p ∧
    read b t.2.2 = Cell.mark p

instance (b : List Cell) (t : Nat × Nat × Nat) (p : Player) :
    Decidable (monoTriple b t p) :=
  inferInstanceAs (Decidable (_ ∧ _ ∧ _))

/-- Spec wording "a combination wins iff all three referenced cells are
non-Empty and equal": some player's mark fills all three cells. -/
def specComboWins (b : List Cell) (t : Nat × Nat × Nat) : Bool :=
  match read b t.1, read b t.2.1, read b t.2.2 with
  | Cell.mark p, Cell.mark q, Cell.mark r => p == q && p == r
  | _, _, _ => false

/-- Spec-side win evaluation: the first combination, in list order, all
of whose three cells are non-Empty and equal, with its player. -/
def specFirstWin (b : List Cell) : Option (Player × (Nat × Nat × Nat)) :=
  match WINNING_COMBINATIONS.find? (fun t => specComboWins b t) with
  | some t =>
    match cellWinner (read b t.1) with
    | some p => some (p, t)
    | none => none
  | none => none

/-! ### Basic lemmas about the array model -/

/-- Writing then reading the same index gives the written value (also
past the end: the write grows the array up to that index). -/
theorem read_write_self : ∀ (b : List Cell) (i : Nat) (v : Cell),
    read (write b i v) i = v
  | [], 0, _ => rfl
  | [], n + 1, v => read_write_self [] n v
  | _ :: _, 0, _ => rfl
  | _ :: rest, n + 1, v => read_write_self rest n v

/-- Writing one index leaves every other index's read unchanged (holes
created by an out-of-range write read as `undefined`, exactly as the
out-of-range reads they replace did). -/
theorem read_write_ne : ∀ (b : List Cell) (i j : Nat) (v : Cell),
    i ≠ j → read (write b i v) j = read b j
  | [], 0, 0, _, h => absurd rfl h
  | [], 0, _ + 1, _, _ => rfl
  | [], _ + 1, 0, _, _ => rfl
  | [], n + 1, m + 1, v, h =>
    read_write_ne [] n m v (fun e => h (congrArg Nat.succ e))
  | _ :: _, 0, 0, _, h => absurd rfl h
  | _ :: _, 0, _ + 1, _, _ => rfl
  | _ :: _, _ + 1, 0, _, _ => rfl
  | _ :: rest, n + 1, m + 1, v, h =>
    read_write_ne rest n m v (fun e => h (congrArg Nat.succ e))

/-- Length after a write: unchanged in range, grown to `i + 1` past the
end. -/
theorem length_write : ∀ (b : List Cell) (i : Nat) (v : Cell),
    (write b i v).length = max b.length (i + 1)
  | [], 0, _ => rfl
  | [], n + 1, v => by
    simpa [write, Nat.succ_max_succ] using length_write [] n v
  | _ :: _, 0, _ => by simp [write]
  | c :: rest, n + 1, v => by
    simpa [write, Nat.succ_max_succ] using length_write rest n v

/-- Writing a mark over a falsy slot (explicit `null`, hole, or past the
end) adds exactly one mark of that player and none of the other. -/
theorem countMark_write : ∀ (b : List Cell) (i : Nat) (p q : Player),
    isTruthy (read b i) = false →
    countMark (write b i (Cell.mark p)) q =
      countMark b q + (if p = q then 1 else 0)
  | [], 0, p, q, _ => by simp [write, countMark]
  | [], n + 1, p, q, _ => by
    have ih := countMark_write [] n p q rfl
    simp [write, countMark, ih]
  | c :: rest, 0, p, q, h => by
    cases c with
    | mark r => exact absurd h (by simp [read, isTruthy])
    | empty => simp [write, countMark, Nat.add_comm]
    | hole => simp [write, countMark, Nat.add_comm]
  | c :: rest, n + 1, p, q, h => by
    have ih := countMark_write rest n p q h
    simp [write, countMark, ih, Nat.add_assoc]

/-! ### Lemmas about `checkWinner` -/

theorem cellWinner_eq_some (c : Cell) (p : Player)
    (h : cellWinner c = some p) : c = Cell.mark p := by
  cases c with
  | empty => simp [cellWinner] at h
  | hole => simp [cellWinner] at h
  | mark r => simp [cellWinner] at h; rw [h]

/-- If the scan of a combination list finds no winner, neither does the
scan of its tail. -/
theorem checkWinnerAux_cons_none (board : List Cell) (a b c : Nat)
    (rest : List (Nat × Nat × Nat))
    (h : checkWinnerAux board ((a, b, c) :: rest) = none) :
    checkWinnerAux board rest = none := by
  simp only [checkWinnerAux] at h
  split at h
  · split at h
    · simp at h
    · exact h
  · exact h

/-- A combination reported by the scan belongs to the scanned list and
is filled by the reported winner's mark. -/
theorem checkWinnerAux_some (board : List Cell) :
    ∀ (combos : List (Nat × Nat × Nat)) (w : Player) (t : Nat × Nat × Nat),
      checkWinnerAux board combos = some (w, t) →
      t ∈ combos ∧ read board t.1 = Cell.mark w ∧
        read board t.2.1 = Cell.mark w ∧ read board t.2.2 = Cell.mark w := by
  intro combos
  induction combos with
  | nil => intro w t h; simp [checkWinnerAux] at h
  | cons head rest ih =>
    obtain ⟨a, b, c⟩ := head
    intro w t h
    simp only [checkWinnerAux] at h
    split at h
    next q hq =>
      split at h
      next hcond =>
        simp only [Option.some.injEq, Prod.mk.injEq] at h
        obtain ⟨hw, ht⟩ := h
        subst hw
        subst ht
        have ha : read board a = Cell.mark q := cellWinner_eq_some _ _ hq
        exact ⟨List.mem_cons_self _ _, ha, hcond.1.symm.trans ha,
          hcond.2.symm.trans ha⟩
      next hcond =>
        obtain ⟨hm, h1, h2, h3⟩ := ih w t h
        exact ⟨List.mem_cons_of_mem _ hm, h1, h2, h3⟩
    next hq =>
      obtain ⟨hm, h1, h2, h3⟩ := ih w t h
      exact ⟨List.mem_cons_of_mem _ hm, h1, h2, h3⟩

/-- If the scan reports no winner on a board, then after writing one
mark the scan can only report the player of that mark: any newly
complete combination must contain the written cell. -/
theorem checkWinnerAux_write_winner (board : List Cell) (i : Nat) (p : Player) :
    ∀ (combos : List (Nat × Nat × Nat)) (w : Player) (t : Nat × Nat × Nat),
      checkWinnerAux board combos = none →
      checkWinnerAux (write board i (Cell.mark p)) combos = some (w, t) →
      w = p := by
  intro combos
  induction combos with
  | nil => intro w t _ hnew; simp [checkWinnerAux] at hnew
  | cons head rest ih =>
    obtain ⟨a, b, c⟩ := head
    intro w t hold hnew
    have hrest : checkWinnerAux board rest = none :=
      checkWinnerAux_cons_none board a b c rest hold
    simp only [checkWinnerAux] at hnew
    split at hnew
    next q hq =>
      split at hnew
      next hcond =>
        simp only [Option.some.injEq, Prod.mk.injEq] at hnew
        obtain ⟨hw, -⟩ := hnew
        subst hw
        have ha : read (write board i (Cell.mark p)) a = Cell.mark q :=
          cellWinner_eq_some _ _ hq
        by_cases hia : i = a
        · subst hia
          have := read_write_self board i (Cell.mark p)
          rw [this] at ha
          exact (Cell.mark.injEq .. ▸ ha).symm
        · by_cases hib : i = b
          · subst hib
            have hb : read (write board i (Cell.mark p)) i = Cell.mark p :=
              read_write_self board i (Cell.mark p)
            have : Cell.mark q = Cell.mark p := (hcond.1.symm.trans ha).symm.trans hb
            exact Cell.mark.injEq .. ▸ this
          · by_cases hic : i = c
            · subst hic
              have hc : read (write board i (Cell.mark p)) i = Cell.mark p :=
                read_write_self board i (Cell.mark p)
              have : Cell.mark q = Cell.mark p := (hcond.2.symm.trans ha).symm.trans hc
              exact Cell.mark.injEq .. ▸ this
            · exfalso
              have ea : read (write board i (Cell.mark p)) a = read board a :=
                read_write_ne board i a _ hia
              have eb : read (write board i (Cell.mark p)) b = read board b :=
                read_write_ne board i b _ hib
              have ec : read (write board i (Cell.mark p)) c = read board c :=
                read_write_ne board i c _ hic
              rw [ea] at hq
              have hcond' : read board a = read board b ∧ read board a = read board c :=
                ⟨by rw [← ea, ← eb]; exact hcond.1, by rw [← ea, ← ec]; exact hcond.2⟩
              have hsome : checkWinnerAux board ((a, b, c) :: rest) =
                  some (q, (a, b, c)) := by
                simp only [checkWinnerAux, hq]
                rw [if_pos hcond']
              rw [hsome] at hold
              exact Option.noConfusion hold
      next hcond => exact ih w t hrest hnew
    next hq => exact ih w t hrest hnew

/-- `checkWinner` reports only row combinations of the source list,
filled by the reported winner. -/
theorem checkWinner_some (board : List Cell) (w : Player) (t : Nat × Nat × Nat)
    (h : checkWinner board = some (w, t)) :
    t ∈ WINNING_COMBINATIONS ∧ read board t.1 = Cell.mark w ∧
      read board t.2.1 = Cell.mark w ∧ read board t.2.2 = Cell.mark w :=
  checkWinnerAux_some board WINNING_COMBINATIONS w t h

/-- On a board without a winner, placing one mark can only create a win
for the player of that mark. -/
theorem checkWinner_write_winner (board : List Cell) (i : Nat) (p : Player)
    (w : Player) (t : Nat × Nat × Nat)
    (hold : checkWinner board = none)
    (hnew : checkWinner (write board i (Cell.mark p)) = some (w, t)) :
    w = p :=
  checkWinnerAux_write_winner board i p WINNING_COMBINATIONS w t hold hnew

/-- Every listed winning combination is one of the eight canonical
triples. -/
theorem winning_combinations_canonical :
    ∀ t ∈ WINNING_COMBINATIONS, t ∈ ALL_TRIPLES := by decide

/-! ### Shapes of a single `handleCellClick` step -/

/-- An active state is exactly one whose status is `inProgress`. -/
theorem status_of_active (s : GameState) (h : isGameActive s = true) :
    s.status = GameStatus.inProgress := by
  cases hs : s.status with
  | inProgress => rfl
  | won w t => simp [isGameActive, hs] at h
  | draw => simp [isGameActive, hs] at h

/-- A click while the game is inactive is ignored. -/
theorem handleCellClick_inactive (s : GameState) (i : Nat)
    (h : isGameActive s = false) : handleCellClick s i = s := by
  simp [handleCellClick, h]

/-- A click on a truthy (marked) cell is ignored. -/
theorem handleCellClick_occupied (s : GameState) (i : Nat)
    (h : isTruthy (read s.boardState i) = true) : handleCellClick s i = s := by
  simp [handleCellClick, h]

/-- An accepted click whose board passes the winner check ends the game
as won, keeping the mover as `currentPlayer`. -/
theorem handleCellClick_won (s : GameState) (i : Nat) (w : Player)
    (t : Nat × Nat × Nat)
    (hact : isGameActive s = true)
    (hemp : isTruthy (read s.boardState i) = false)
    (hcw : checkWinner (write s.boardState i (Cell.mark s.currentPlayer)) =
      some (w, t)) :
    handleCellClick s i =
      { boardState := write s.boardState i (Cell.mark s.currentPlayer)
        currentPlayer := s.currentPlayer
        status := GameStatus.won w t } := by
  simp [handleCellClick, hact, hemp, hcw]

/-- An accepted click with no winner on a board whose every slot passes
the `cell !== null` check ends the game as a draw. -/
theorem handleCellClick_draw (s : GameState) (i : Nat)
    (hact : isGameActive s = true)
    (hemp : isTruthy (read s.boardState i) = false)
    (hcw : checkWinner (write s.boardState i (Cell.mark s.currentPlayer)) = none)
    (hall : (write s.boardState i (Cell.mark s.currentPlayer)).all jsNotNull
      = true) :
    handleCellClick s i =
      { boardState := write s.boardState i (Cell.mark s.currentPlayer)
        currentPlayer := s.currentPlayer
        status := GameStatus.draw } := by
  simp [handleCellClick, hact, hemp, hcw, hall]

/-- An accepted click with no winner and a not-yet-full board switches
the player and stays in progress. -/
theorem handleCellClick_flip (s : GameState) (i : Nat)
    (hact : isGameActive s = true)
    (hemp : isTruthy (read s.boardState i) = false)
    (hcw : checkWinner (write s.boardState i (Cell.mark s.currentPlayer)) = none)
    (hall : (write s.boardState i (Cell.mark s.currentPlayer)).all jsNotNull
      = false) :
    handleCellClick s i =
      { boardState := write s.boardState i (Cell.mark s.currentPlayer)
        currentPlayer := otherPlayer s.currentPlayer
        status := GameStatus.inProgress } := by
  simp [handleCellClick, hact, hemp, hcw, hall]

/-! ### The reachability invariant -/

/--`1` when it is O's turn (X has moved once more than O), else `0`. -/
def pendingCount : Player → Nat
  | Player.X => 0
  | Player.O => 1

/-- Invariant of every state reachable by clicks from the initial
state: while in progress the board has no detected winner and is not
full; a won status records exactly what `checkWinner` returns on the
frozen board; and the mark counts track whose turn it is. -/
def Inv (s : GameState) : Prop :=
  (s.status = GameStatus.inProgress → checkWinner s.boardState = none) ∧
  (s.status = GameStatus.inProgress → s.boardState.all jsNotNull = false) ∧
  (∀ w t, s.status = GameStatus.won w t →
    checkWinner s.boardState = some (w, t)) ∧
  (s.status = GameStatus.inProgress →
    countMark s.boardState Player.X =
      countMark s.boardState Player.O + pendingCount s.currentPlayer) ∧
  (countMark s.boardState Player.X = countMark s.boardState Player.O ∨
    countMark s.boardState Player.X = countMark s.boardState Player.O + 1)

theorem Inv_initState : Inv initState := by
  refine ⟨fun _ => by decide, fun _ => by decide, ?_, fun _ => by decide,
    Or.inl (by decide)⟩
  intro w t h
  exact absurd h (by simp [initState])

theorem Inv_step (s : GameState) (i : Nat) (h : Inv s) :
    Inv (handleCellClick s i) := by
  obtain ⟨h1, h2, h3, h4, h5⟩ := h
  cases hact : isGameActive s with
  | false => rw [handleCellClick_inactive s i hact]; exact ⟨h1, h2, h3, h4, h5⟩
  | true =>
  cases hemp : isTruthy (read s.boardState i) with
  | true => rw [handleCellClick_occupied s i hemp]; exact ⟨h1, h2, h3, h4, h5⟩
  | false =>
  have hstat : s.status = GameStatus.inProgress := status_of_active s hact
  have hnone : checkWinner s.boardState = none := h1 hstat
  have hcnt : countMark s.boardState Player.X =
      countMark s.boardState Player.O + pendingCount s.currentPlayer :=
    h4 hstat
  have cX : countMark (write s.boardState i (Cell.mark s.currentPlayer))
      Player.X = countMark s.boardState Player.X +
        (if s.currentPlayer = Player.X then 1 else 0) :=
    countMark_write s.boardState i s.currentPlayer Player.X hemp
  have cO : countMark (write s.boardState i (Cell.mark s.currentPlayer))
      Player.O = countMark s.boardState Player.O +
        (if s.currentPlayer = Player.O then 1 else 0) :=
    countMark_write s.boardState i s.currentPlayer Player.O hemp
  cases hcw : checkWinner (write s.boardState i (Cell.mark s.currentPlayer)) with
  | some wt =>
    obtain ⟨w, t⟩ := wt
    rw [handleCellClick_won s i w t hact hemp hcw]
    refine ⟨fun hc => absurd hc (by simp), fun hc => absurd hc (by simp),
      ?_, fun hc => absurd hc (by simp), ?_⟩
    · intro w' t' hw
      simp only [GameStatus.won.injEq] at hw
      rw [← hw.1, ← hw.2]
      exact hcw
    · cases hp : s.currentPlayer with
      | X => rw [hp] at cX cO; simp at cX cO
             rw [hp, pendingCount] at hcnt; dsimp only; omega
      | O => rw [hp] at cX cO; simp at cX cO
             rw [hp, pendingCount] at hcnt; dsimp only; omega
  | none =>
  cases hall : (write s.boardState i (Cell.mark s.currentPlayer)).all jsNotNull
      with
  | true =>
    rw [handleCellClick_draw s i hact hemp hcw hall]
    refine ⟨fun hc => absurd hc (by simp), fun hc => absurd hc (by simp),
      ?_, fun hc => absurd hc (by simp), ?_⟩
    · intro w' t' hw
      exact absurd hw (by simp)
    · cases hp : s.currentPlayer with
      | X => rw [hp] at cX cO; simp at cX cO
             rw [hp, pendingCount] at hcnt; dsimp only; omega
      | O => rw [hp] at cX cO; simp at cX cO
             rw [hp, pendingCount] at hcnt; dsimp only; omega
  | false =>
    rw [handleCellClick_flip s i hact hemp hcw hall]
    refine ⟨fun _ => hcw, fun _ => hall, ?_, fun _ => ?_, ?_⟩
    · intro w' t' hw
      exact absurd hw (by simp)
    · cases hp : s.currentPlayer with
      | X => rw [hp] at cX cO; simp at cX cO
             rw [hp, pendingCount] at hcnt
             simp [hp, otherPlayer, pendingCount]; omega
      | O => rw [hp] at cX cO; simp at cX cO
             rw [hp, pendingCount] at hcnt
             simp [hp, otherPlayer, pendingCount]; omega
    · cases hp : s.currentPlayer with
      | X => rw [hp] at cX cO; simp at cX cO
             rw [hp, pendingCount] at hcnt; dsimp only; omega
      | O => rw [hp] at cX cO; simp at cX cO
             rw [hp, pendingCount] at hcnt; dsimp only; omega

theorem Inv_playFrom (moves : List Nat) :
    ∀ (s : GameState), Inv s → Inv (playFrom s moves) := by
  induction moves with
  | nil => intro s h; exact h
  | cons m rest ih =>
    intro s h
    exact ih (handleCellClick s m) (Inv_step s m h)

theorem Inv_play (moves : List Nat) : Inv (play moves) :=
  Inv_playFrom moves initState Inv_initState

/-! ### Refinement: `checkWinner` against the specification's wording -/

/-- The scan of a combination list agrees with the specification's
description: the first combination all of whose three cells are
non-Empty and equal, paired with its mark. -/
theorem checkWinnerAux_eq_specFind (board : List Cell) :
    ∀ (combos : List (Nat × Nat × Nat)),
      checkWinnerAux board combos =
        match combos.find? (fun t => specComboWins board t) with
        | some t =>
          match cellWinner (read board t.1) with
          | some p => some (p, t)
          | none => none
        | none => none := by
  intro combos
  induction combos with
  | nil => simp [checkWinnerAux]
  | cons head rest ih =>
    obtain ⟨a, b, c⟩ := head
    cases hw : specComboWins board (a, b, c) with
    | true =>
      rw [List.find?_cons_of_pos _ (by simpa using hw)]
      cases hra : read board a <;> cases hrb : read board b <;>
        cases hrc : read board c <;>
        simp [specComboWins, hra, hrb, hrc] at hw
      obtain ⟨rfl, rfl⟩ := hw
      simp [checkWinnerAux, cellWinner, hra, hrb, hrc]
    | false =>
      have hstep : checkWinnerAux board ((a, b, c) :: rest) =
          checkWinnerAux board rest := by
        cases hra : read board a <;> cases hrb : read board b <;>
          cases hrc : read board c <;>
          simp_all [specComboWins, checkWinnerAux, cellWinner]
      rw [List.find?_cons_of_neg _ (by simp [hw]), hstep, ih]

/-- `checkWinner` computes exactly the specification's win evaluation:
the first combination in list order whose three cells are non-Empty and
equal, with the player holding them. -/
theorem checkWinner_eq_specFirstWin (b : List Cell) :
    checkWinner b = specFirstWin b := by
  rw [checkWinner, checkWinnerAux_eq_specFind]
  rfl

/-- The draw check of the source, `boardState.every(cell => cell !==
null)`, holds exactly when no slot of the board is an explicit
`null`. -/
theorem all_jsNotNull_iff (b : List Cell) :
    b.all jsNotNull = true ↔ ∀ j, j < b.length → read b j ≠ Cell.empty := by
  rw [List.all_eq_true]
  constructor
  · intro h j hj
    rw [read, List.getD_eq_getElem b Cell.hole hj]
    intro he
    have := h _ (List.getElem_mem hj)
    rw [he] at this
    simp [jsNotNull] at this
  · intro h x hx
    obtain ⟨j, hj, rfl⟩ := List.mem_iff_getElem.mp hx
    have := h j hj
    rw [read, List.getD_eq_getElem b Cell.hole hj] at this
    cases hv : b[j] with
    | empty => exact absurd hv this
    | hole => simp [jsNotNull]
    | mark p => simp [jsNotNull]

/-- The board of any accepted click is the old board with the mover's
mark written at the clicked index, whatever the outcome. -/
theorem handleCellClick_board (s : GameState) (i : Nat)
    (hact : isGameActive s = true)
    (hemp : isTruthy (read s.boardState i) = false) :
    (handleCellClick s i).boardState =
      write s.boardState i (Cell.mark s.currentPlayer) := by
  cases hcw : checkWinner (write s.boardState i (Cell.mark s.currentPlayer))
      with
  | some wt =>
    obtain ⟨w, t⟩ := wt
    rw [handleCellClick_won s i w t hact hemp hcw]
  | none =>
    cases hall : (write s.boardState i (Cell.mark s.currentPlayer)).all
        jsNotNull with
    | true => rw [handleCellClick_draw s i hact hemp hcw hall]
    | false => rw [handleCellClick_flip s i hact hemp hcw hall]

/-- A state whose status is `inProgress` is active. -/
theorem active_of_status (s : GameState)
    (h : s.status = GameStatus.inProgress) : isGameActive s = true := by
  simp [isGameActive, h]

/-! ### Claim theorems -/

/-- C1: the claim says every one of the 8 canonical triples (rows,
columns, diagonals), when filled by one player with no prior win, yields
status Won.  The code's `WINNING_COMBINATIONS` lists only the three
rows, so a column win is never detected: after clicks `[0,1,3,2,6]`
player X has filled the column `(0,3,6)` — one of the eight canonical
triples — yet the game status is still `inProgress`. -/
theorem column_win_not_detected :
    monoTriple (play [0, 1, 3, 2, 6]).boardState (0, 3, 6) Player.X ∧
    (0, 3, 6) ∈ ALL_TRIPLES ∧
    (play [0, 1, 3, 2, 6]).status = GameStatus.inProgress := by decide

/-- C2: an accepted move (game in progress, target cell Empty, index in
0-8) writes the current player's mark at the index; if the
specification's win evaluation — first combination of the list whose
three cells are all non-Empty and equal — reports a winner, the status
becomes Won with that player and triple; otherwise if all 9 cells are
non-Empty the status becomes Draw; otherwise the turn flips and the
status remains InProgress. -/
theorem handleCellClick_follows_spec (s : GameState) (i : Nat)
    (h9 : s.boardState.length = 9)
    (hact : s.status = GameStatus.inProgress)
    (hi : i < 9)
    (hemp : read s.boardState i = Cell.empty) :
    (handleCellClick s i).boardState =
      write s.boardState i (Cell.mark s.currentPlayer) ∧
    (∀ w t, specFirstWin (write s.boardState i (Cell.mark s.currentPlayer)) =
        some (w, t) →
      (handleCellClick s i).status = GameStatus.won w t ∧
      (handleCellClick s i).currentPlayer = s.currentPlayer) ∧
    (specFirstWin (write s.boardState i (Cell.mark s.currentPlayer)) = none →
      ((∀ j, j < 9 →
          read (write s.boardState i (Cell.mark s.currentPlayer)) j ≠
            Cell.empty) →
        (handleCellClick s i).status = GameStatus.draw) ∧
      ((∃ j, j < 9 ∧
          read (write s.boardState i (Cell.mark s.currentPlayer)) j =
            Cell.empty) →
        (handleCellClick s i).status = GameStatus.inProgress ∧
        (handleCellClick s i).currentPlayer = otherPlayer s.currentPlayer)) := by
  have hactb : isGameActive s = true := active_of_status s hact
  have hempb : isTruthy (read s.boardState i) = false := by rw [hemp]; rfl
  have hb := handleCellClick_board s i hactb hempb
  have hlen : (write s.boardState i (Cell.mark s.currentPlayer)).length = 9 := by
    rw [length_write, h9]; omega
  refine ⟨hb, ?_, ?_⟩
  · intro w t hw
    have hcw : checkWinner (write s.boardState i (Cell.mark s.currentPlayer)) =
        some (w, t) := by rw [checkWinner_eq_specFirstWin]; exact hw
    rw [handleCellClick_won s i w t hactb hempb hcw]
    exact ⟨rfl, rfl⟩
  · intro hwnone
    have hcw : checkWinner (write s.boardState i (Cell.mark s.currentPlayer)) =
        none := by rw [checkWinner_eq_specFirstWin]; exact hwnone
    constructor
    · intro hfull
      have hall : (write s.boardState i (Cell.mark s.currentPlayer)).all
          jsNotNull = true := by
        rw [all_jsNotNull_iff]
        intro j hj
        exact hfull j (by omega)
      rw [handleCellClick_draw s i hactb hempb hcw hall]
    · intro hex
      obtain ⟨j, hj, hje⟩ := hex
      have hall : (write s.boardState i (Cell.mark s.currentPlayer)).all
          jsNotNull = false := by
        cases hv : (write s.boardState i (Cell.mark s.currentPlayer)).all
            jsNotNull with
        | false => rfl
        | true =>
          exact absurd hje
            ((all_jsNotNull_iff _).mp hv j (by omega))
      rw [handleCellClick_flip s i hactb hempb hcw hall]
      exact ⟨rfl, rfl⟩

/-- Witness for C2: the first click on the centre cell from the initial
state writes X's mark, flips the turn to O and stays in progress. -/
theorem handleCellClick_follows_spec_witness :
    (handleCellClick initState 4).boardState =
      write initState.boardState 4 (Cell.mark initState.currentPlayer) ∧
    (handleCellClick initState 4).status = GameStatus.inProgress ∧
    (handleCellClick initState 4).currentPlayer =
      otherPlayer initState.currentPlayer := by
  have h := handleCellClick_follows_spec initState 4 (by decide) rfl
    (by decide) (by decide)
  exact ⟨h.1, (h.2.2 (by decide)).2 ⟨0, by decide, by decide⟩⟩

/-- C3: a move aimed at a cell already holding a mark changes nothing:
board, current player and status are exactly as before. -/
theorem occupied_move_ignored (s : GameState) (i : Nat) (p : Player)
    (h : read s.boardState i = Cell.mark p) :
    handleCellClick s i = s :=
  handleCellClick_occupied s i (by rw [h]; rfl)

/-- Witness for C3: clicking cell 0 twice from the initial state leaves
the state of the first click unchanged. -/
theorem occupied_move_ignored_witness :
    handleCellClick (handleCellClick initState 0) 0 =
      handleCellClick initState 0 :=
  occupied_move_ignored (handleCellClick initState 0) 0 Player.X (by decide)

/-- C4: once the status is Won or Draw, no sequence of further moves (at
any indices) changes the state at all, while reset does leave the
terminal state. -/
theorem terminal_state_frozen (s : GameState) (moves : List Nat)
    (h : s.status ≠ GameStatus.inProgress) :
    playFrom s moves = s ∧ (resetGame s).status = GameStatus.inProgress := by
  have hinact : isGameActive s = false := by
    cases hs : s.status with
    | inProgress => exact absurd hs h
    | won w t => simp [isGameActive, hs]
    | draw => simp [isGameActive, hs]
  refine ⟨?_, rfl⟩
  induction moves with
  | nil => rfl
  | cons m ms ih =>
    show playFrom (handleCellClick s m) ms = s
    rw [handleCellClick_inactive s m hinact]
    exact ih

/-- Witness for C4: after X wins the top row, three further clicks
change nothing and reset reactivates the game. -/
theorem terminal_state_frozen_witness :
    playFrom (play [0, 4, 1, 3, 2]) [5, 6, 7] = play [0, 4, 1, 3, 2] ∧
    (resetGame (play [0, 4, 1, 3, 2])).status = GameStatus.inProgress :=
  terminal_state_frozen (play [0, 4, 1, 3, 2]) [5, 6, 7] (by decide)

/-- C5 counterexample: the claim quantifies over every prior state, but
a state whose board was extended past 9 entries by an out-of-range
click (reachable: one click at index 9 from the initial state) is reset
by `boardState.fill(null)` to an all-Empty board of length 10, which is
not the initial state. -/
theorem resetGame_extended_not_initial :
    resetGame (handleCellClick initState 9) ≠ initState := by decide

/-- C5 (amended): for every prior state whose board has exactly 9 cells
— in particular every state reachable by in-range moves — reset
produces exactly the initial state and never fails. -/
theorem resetGame_restores_init (s : GameState)
    (h : s.boardState.length = 9) : resetGame s = initState := by
  rw [resetGame, initState]
  have hm : s.boardState.map (fun _ => Cell.empty) =
      List.replicate s.boardState.length Cell.empty := List.map_const' _ _
  rw [hm, h]

/-- Witness for C5 (amended): reset after three in-range moves returns
the initial state. -/
theorem resetGame_restores_init_witness :
    resetGame (play [0, 4, 8]) = initState :=
  resetGame_restores_init (play [0, 4, 8]) (by decide)

/-- C6: after any sequence of moves from the initial state, X's mark
count equals O's or exceeds it by exactly one, and O's count never
exceeds X's. -/
theorem mark_counts_balanced (moves : List Nat) :
    (countMark (play moves).boardState Player.X =
        countMark (play moves).boardState Player.O ∨
      countMark (play moves).boardState Player.X =
        countMark (play moves).boardState Player.O + 1) ∧
    countMark (play moves).boardState Player.O ≤
      countMark (play moves).boardState Player.X := by
  have h := (Inv_play moves).2.2.2.2
  exact ⟨h, by omega⟩

/-- C7: a reachable board of 9 cells, all marked, on which no canonical
triple (row, column or diagonal) is filled by one player, has status
Draw. -/
theorem full_no_line_is_draw (moves : List Nat)
    (h9 : (play moves).boardState.length = 9)
    (hfull : ∀ j, j < 9 → isTruthy (read (play moves).boardState j) = true)
    (hno : ∀ t ∈ ALL_TRIPLES, ∀ p, ¬ monoTriple (play moves).boardState t p) :
    (play moves).status = GameStatus.draw := by
  obtain ⟨h1, h2, h3, -, -⟩ := Inv_play moves
  cases hs : (play moves).status with
  | draw => rfl
  | inProgress =>
    exfalso
    have hallf := h2 hs
    have hallt : (play moves).boardState.all jsNotNull = true := by
      rw [all_jsNotNull_iff]
      intro j hj he
      have := hfull j (by omega)
      rw [he] at this
      simp [isTruthy] at this
    rw [hallt] at hallf
    exact Bool.noConfusion hallf
  | won w t =>
    exfalso
    have hcw := h3 w t hs
    obtain ⟨hmem, ha, hb, hc⟩ := checkWinner_some _ w t hcw
    exact hno t (winning_combinations_canonical t hmem) w ⟨ha, hb, hc⟩

/-- Witness for C7: a full game with no line anywhere ends in Draw. -/
theorem full_no_line_is_draw_witness :
    (play [0, 2, 1, 3, 5, 4, 6, 8, 7]).status = GameStatus.draw :=
  full_no_line_is_draw [0, 2, 1, 3, 5, 4, 6, 8, 7] (by decide) (by decide)
    (by decide)

/-- C8: from any state reachable by clicks from the initial (or reset)
state that is still in progress, if a click makes the game Won, the
reported winner is the player who made that move. -/
theorem reported_winner_is_mover (moves : List Nat) (i : Nat) (w : Player)
    (t : Nat × Nat × Nat)
    (hact : (play moves).status = GameStatus.inProgress)
    (hwin : (handleCellClick (play moves) i).status = GameStatus.won w t) :
    w = (play moves).currentPlayer := by
  have hnone : checkWinner (play moves).boardState = none :=
    (Inv_play moves).1 hact
  have hactb : isGameActive (play moves) = true := active_of_status _ hact
  cases hemp : isTruthy (read (play moves).boardState i) with
  | true =>
    rw [handleCellClick_occupied _ i hemp, hact] at hwin
    exact absurd hwin (by simp)
  | false =>
    cases hcw : checkWinner (write (play moves).boardState i
        (Cell.mark (play moves).currentPlayer)) with
    | some wt =>
      obtain ⟨w', t'⟩ := wt
      rw [handleCellClick_won _ i w' t' hactb hemp hcw] at hwin
      simp only [GameStatus.won.injEq] at hwin
      obtain ⟨hw, -⟩ := hwin
      rw [← hw]
      exact checkWinner_write_winner _ i _ w' t' hnone hcw
    | none =>
      cases hall : (write (play moves).boardState i
          (Cell.mark (play moves).currentPlayer)).all jsNotNull with
      | true =>
        rw [handleCellClick_draw _ i hactb hemp hcw hall] at hwin
        exact absurd hwin (by simp)
      | false =>
        rw [handleCellClick_flip _ i hactb hemp hcw hall] at hwin
        exact absurd hwin (by simp)

/-- Witness for C8: completing the top row from the state after clicks
`[0,3,1,4]` reports winner X, who is indeed the player to move. -/
theorem reported_winner_is_mover_witness :
    Player.X = (play [0, 3, 1, 4]).currentPlayer :=
  reported_winner_is_mover [0, 3, 1, 4] 2 Player.X (0, 1, 2) (by decide)
    (by decide)

/-- C9: while the game is active, a click at any index at or past 9 on
the 9-cell board passes the occupied-cell guard (the read is
`undefined`, hence falsy) and writes the current player's mark there,
extending the board beyond 9 entries; within the page's own interface
this is unreachable since `renderBoard` binds handlers only for
indices 0 through 8. -/
theorem out_of_range_click_extends (s : GameState) (i : Nat)
    (hact : s.status = GameStatus.inProgress)
    (h9 : s.boardState.length = 9) (hi : 9 ≤ i) :
    (handleCellClick s i).boardState =
      write s.boardState i (Cell.mark s.currentPlayer) ∧
    read (handleCellClick s i).boardState i = Cell.mark s.currentPlayer ∧
    (handleCellClick s i).boardState.length = i + 1 ∧
    9 < (handleCellClick s i).boardState.length ∧
    (∀ j ∈ handlerIndices, j < 9) := by
  have hhole : read s.boardState i = Cell.hole := by
    rw [read, List.getD_eq_default]
    rw [h9]
    omega
  have hemp : isTruthy (read s.boardState i) = false := by rw [hhole]; rfl
  have hactb := active_of_status s hact
  have hb := handleCellClick_board s i hactb hemp
  refine ⟨hb, ?_, ?_, ?_, by decide⟩
  · rw [hb]
    exact read_write_self ..
  · rw [hb, length_write, h9]
    omega
  · rw [hb, length_write, h9]
    omega

/-- Witness for C9: clicking index 12 from the initial state writes X's
mark there and grows the board to 13 entries. -/
theorem out_of_range_click_extends_witness :
    (handleCellClick initState 12).boardState =
      write initState.boardState 12 (Cell.mark initState.currentPlayer) ∧
    read (handleCellClick initState 12).boardState 12 =
      Cell.mark initState.currentPlayer ∧
    (handleCellClick initState 12).boardState.length = 13 ∧
    9 < (handleCellClick initState 12).boardState.length ∧
    (∀ j ∈ handlerIndices, j < 9) :=
  out_of_range_click_extends initState 12 rfl (by decide) (by omega)

/-- C10: an accepted move at index `i` changes exactly one cell: cell
`i` goes from Empty to the mover's mark and every other index reads
exactly as before. -/
theorem accepted_move_frame (s : GameState) (i : Nat)
    (hact : s.status = GameStatus.inProgress)
    (hemp : read s.boardState i = Cell.empty) :
    read (handleCellClick s i).boardState i = Cell.mark s.currentPlayer ∧
    ∀ j, j ≠ i → read (handleCellClick s i).boardState j =
      read s.boardState j := by
  have hempb : isTruthy (read s.boardState i) = false := by rw [hemp]; rfl
  have hb := handleCellClick_board s i (active_of_status s hact) hempb
  constructor
  · rw [hb]
    exact read_write_self ..
  · intro j hj
    rw [hb]
    exact read_write_ne _ i j _ (Ne.symm hj)

/-- Witness for C10: the first click at the centre marks cell 4 with X
and leaves cell 0 as it was. -/
theorem accepted_move_frame_witness :
    read (handleCellClick initState 4).boardState 4 =
      Cell.mark initState.currentPlayer ∧
    read (handleCellClick initState 4).boardState 0 =
      read initState.boardState 0 := by
  have h := accepted_move_frame initState 4 rfl (by decide)
  exact ⟨h.1, h.2 0 (by decide)⟩

end TicTacToe
